import Mathlib

/-!
Verification of the movement-detection core of the polymarket-bot repository
(src/movement_detector.py, plus the budget arithmetic of the session
controllers in src/movement_bot.py and src/ws_movement_bot.py).

Embedding conventions:
* Python floats are embedded as exact rationals (ℚ); the z-score, which is a
  quotient by a sample standard deviation (a square root), lives in ℝ.
* The bounded `deque(maxlen=60)` price history is embedded as a `List ℚ`
  together with the push operation `dequePush` that drops from the front
  once capacity is exceeded.
* Timestamps (`last_update`, `timestamp`, `window_start`) are dropped from
  the embedding: no claim depends on wall-clock values.
* Python dicts with insertion order (`MovementDetector.outcomes`) are
  embedded as association lists `List (String × OutcomeState)`; iteration
  order of the embedding is the list order, matching dict insertion order.
* Order-book payload parsing (`MovementDetector._get_best_ask`, which
  duck-types on the ask entry shape) is abstracted to its result: a
  `MarketOutcome` carries `best_ask : Option ℚ`, `none` standing for a book
  with no retrievable ask price.
-/

/-- Capacity of the rolling price history (`deque(maxlen=60)`). -/
def HISTORY_MAXLEN : ℕ := 60

/-- Append to a bounded deque: push `x` on the right and drop from the left
whatever exceeds the capacity of 60, exactly as `deque(maxlen=60).append`. -/
def dequePush (l : List ℚ) (x : ℚ) : List ℚ :=
  let l2 := l ++ [x]
  l2.drop (l2.length - HISTORY_MAXLEN)

/-- State tracked per outcome: `OutcomeState` from src/movement_detector.py.
The `last_update` timestamp field is not modelled. -/
structure OutcomeState where
  outcome_name : String
  token_id : String
  no_token_id : Option String := none
  price_history : List ℚ := []
  baseline_price : Option ℚ := none
  current_price : Option ℚ := none
  triggered : Bool := false
  trigger_count : ℕ := 0

namespace OutcomeState

/-- `OutcomeState.update_price`: set `current_price` and append to the
bounded history. -/
def update_price (s : OutcomeState) (price : ℚ) : OutcomeState :=
  { s with current_price := some price,
           price_history := dequePush s.price_history price }

/-- `OutcomeState.set_baseline`: clear the history, re-seed it with `price`,
set baseline and current price, reset trigger bookkeeping. -/
def set_baseline (s : OutcomeState) (price : ℚ) : OutcomeState :=
  { s with baseline_price := some price,
           price_history := [price],
           current_price := some price,
           triggered := false,
           trigger_count := 0 }

end OutcomeState

/-- Mean of a list of rationals (`statistics.mean` applied to the history). -/
def listMean (l : List ℚ) : ℚ := l.sum / l.length

/-- Sample variance with Bessel's correction, i.e. the square of
`statistics.stdev`.  Only evaluated on lists of length at least 5 (hence at
least 2, so `statistics.stdev` cannot raise). -/
def sampleVariance (l : List ℚ) : ℚ :=
  ((l.map (fun x => (x - listMean l) ^ 2)).sum) / ((l.length : ℚ) - 1)

/-- Sample standard deviation `statistics.stdev` of the price history. -/
noncomputable def stdev (l : List ℚ) : ℝ := Real.sqrt ((sampleVariance l : ℚ) : ℝ)

namespace OutcomeState

/-- `OutcomeState.get_zscore`: `none` when either price is unset or the
history holds fewer than 5 observations; when the sample standard deviation
is below 0.001, saturate to ±10.0 for a move beyond 0.05 and to 0.0
otherwise; in the normal case return `(current - baseline) / stdev`.
The source's `except statistics.StatisticsError` branch is unreachable (it
fires only for histories of length < 2, excluded by the length-5 guard) and
is therefore not modelled. -/
noncomputable def get_zscore (s : OutcomeState) : Option ℝ :=
  match s.baseline_price, s.current_price with
  | some b, some c =>
    if s.price_history.length < 5 then none
    else
      let std_dev := stdev s.price_history
      if std_dev < 0.001 then
        let change := c - b
        if 0.05 < |change| then some (if 0 < change then 10 else -10)
        else some 0
      else some (((c - b : ℚ) : ℝ) / std_dev)
  | _, _ => none

/-- `OutcomeState.get_price_change`: `current - baseline`, or `none` if
either is unset. -/
def get_price_change (s : OutcomeState) : Option ℚ :=
  match s.baseline_price, s.current_price with
  | some b, some c => some (c - b)
  | _, _ => none

end OutcomeState

/-- `MovementSignal` from src/movement_detector.py (timestamp dropped). -/
structure MovementSignal where
  outcome_name : String
  token_id : String
  no_token_id : Option String
  current_price : ℚ
  baseline_price : ℚ
  zscore : ℝ
  price_change : ℚ
  price_change_pct : ℚ
  trigger_number : ℕ
  budget_pct : ℚ

/-- One market outcome as handed to the detector.  The order book itself is
abstracted to the result of `MovementDetector._get_best_ask` on it:
`best_ask = none` models a book from which no ask price is retrievable. -/
structure MarketOutcome where
  outcome : String
  token_id : String
  no_token_id : Option String := none
  best_ask : Option ℚ := none

/-- Abstraction of `MovementDetector._get_best_ask`. -/
def get_best_ask (mo : MarketOutcome) : Option ℚ := mo.best_ask

/-- `MovementDetector` from src/movement_detector.py (`window_start`
timestamp dropped).  `outcomes` is the insertion-ordered dict from outcome
name to state. -/
structure MovementDetector where
  zscore_threshold : ℝ := 2.5
  scale_in_pcts : List ℚ := [50, 30, 20]
  max_buy_price : ℚ := 0.95
  min_price_change : ℚ := 0.05
  outcomes : List (String × OutcomeState) := []
  baseline_set : Bool := false
  total_signals : ℕ := 0
  budget_spent_pct : ℚ := 0
  locked_outcome : Option String := none

/-- Look up an outcome state by name in the detector's dict. -/
def lookupOutcome (l : List (String × OutcomeState)) (k : String) : Option OutcomeState :=
  (l.find? (fun p => p.1 == k)).map (fun p => p.2)

/-- Apply `f` to the entry with key `k` (dict update on an existing key);
a missing key leaves the list unchanged. -/
def updateAssoc (l : List (String × OutcomeState)) (k : String)
    (f : OutcomeState → OutcomeState) : List (String × OutcomeState) :=
  l.map (fun p => if p.1 == k then (p.1, f p.2) else p)

/-- Dict assignment `d[k] = v`: replace in place when the key exists,
append otherwise. -/
def insertOrReplace (l : List (String × OutcomeState)) (k : String)
    (v : OutcomeState) : List (String × OutcomeState) :=
  if l.any (fun p => p.1 == k) then
    l.map (fun p => if p.1 == k then (p.1, v) else p)
  else l ++ [(k, v)]

namespace MovementDetector

/-- `MovementDetector.reset`: clear all per-session mutable state. -/
def reset (d : MovementDetector) : MovementDetector :=
  { d with outcomes := [], baseline_set := false, total_signals := 0,
           budget_spent_pct := 0, locked_outcome := none }

/-- `MovementDetector.set_baseline`: mark the baseline as set and seed one
`OutcomeState` per outcome with a retrievable best ask. -/
def set_baseline (d : MovementDetector) (market_outcomes : List MarketOutcome) :
    MovementDetector :=
  { d with baseline_set := true,
           outcomes := market_outcomes.foldl (fun acc mo =>
             match get_best_ask mo with
             | none => acc
             | some p => insertOrReplace acc mo.outcome
                 (OutcomeState.set_baseline
                   { outcome_name := mo.outcome, token_id := mo.token_id,
                     no_token_id := mo.no_token_id } p)) d.outcomes }

end MovementDetector

/-- `MovementDetector._check_trigger`, evaluated on one candidate state.
Python mutates `state` and `self` in place; the embedding returns the
optional signal together with the updated state and detector.  Every
rejection path returns the inputs unchanged.  The checks appear in source
order: z-score threshold, minimum price change, price ceiling, lock,
scale-in slot. -/
noncomputable def check_trigger (d : MovementDetector) (s : OutcomeState) :
    Option MovementSignal × OutcomeState × MovementDetector :=
  match s.get_zscore, s.baseline_price, s.current_price with
  | some zscore, some b, some c =>
    if zscore < d.zscore_threshold then (none, s, d)
    else if c - b < d.min_price_change then (none, s, d)
    else if d.max_buy_price < c then (none, s, d)
    else if d.locked_outcome ≠ none ∧ d.locked_outcome ≠ some s.outcome_name then
      (none, s, d)
    else
      let trigger_num := s.trigger_count + 1
      if d.scale_in_pcts.length < trigger_num then (none, s, d)
      else
        let budget_pct := d.scale_in_pcts.getD (trigger_num - 1) 0
        let s2 := { s with triggered := true, trigger_count := trigger_num }
        let locked2 := match d.locked_outcome with
          | none => some s.outcome_name
          | some x => some x
        let d2 := { d with budget_spent_pct := d.budget_spent_pct + budget_pct,
                           locked_outcome := locked2 }
        let pct := if 0 < b then (c - b) / b * 100 else 0
        (some { outcome_name := s.outcome_name, token_id := s.token_id,
                no_token_id := s.no_token_id, current_price := c,
                baseline_price := b, zscore := zscore, price_change := c - b,
                price_change_pct := pct, trigger_number := trigger_num,
                budget_pct := budget_pct }, s2, d2)
  | _, _, _ => (none, s, d)

namespace MovementDetector

/-- First pass of `MovementDetector.update_prices`: feed every listed
outcome's best ask into its tracked state; untracked outcomes and outcomes
without a retrievable ask are skipped. -/
def firstPass (outcomes : List (String × OutcomeState))
    (market_outcomes : List MarketOutcome) : List (String × OutcomeState) :=
  market_outcomes.foldl (fun acc mo =>
    match get_best_ask mo with
    | none => acc
    | some p => updateAssoc acc mo.outcome (fun s => s.update_price p)) outcomes

/-- One step of the best-mover scan of `update_prices`: keep the running
`(best_state, best_zscore)` unless this outcome has a z-score strictly above
the running best. -/
noncomputable def bestStep (acc : Option OutcomeState × ℝ)
    (p : String × OutcomeState) : Option OutcomeState × ℝ :=
  match p.2.get_zscore with
  | none => acc
  | some z => if acc.2 < z then (some p.2, z) else acc

/-- Second pass of `MovementDetector.update_prices`: scan the tracked
outcomes for the state with the highest z-score, starting from
`best_state = None, best_zscore = 0.0` and replacing the running best only
on a strictly larger z-score. -/
noncomputable def bestScan (outcomes : List (String × OutcomeState)) :
    Option OutcomeState × ℝ :=
  outcomes.foldl bestStep (none, 0)

/-- `MovementDetector.update_prices`: the per-tick entry point.  Returns the
emitted signals (at most one) and the updated detector. -/
noncomputable def update_prices (d : MovementDetector)
    (market_outcomes : List MarketOutcome) :
    List MovementSignal × MovementDetector :=
  if d.baseline_set then
    let os1 := firstPass d.outcomes market_outcomes
    let d1 := { d with outcomes := os1 }
    match (bestScan os1).1 with
    | none => ([], d1)
    | some best_state =>
      match check_trigger d1 best_state with
      | (some sig, s2, d2) =>
        ([sig], { d2 with
                    outcomes := updateAssoc d2.outcomes best_state.outcome_name
                      (fun _ => s2),
                    total_signals := d2.total_signals + 1 })
      | (none, _, d2) => ([], d2)
  else ([], d)

end MovementDetector

/-- `WebSocketMovementBot._feed_price_to_detector`: route one price update
to a tracked state, then attempt a trigger on that state alone, counting the
signal on the detector when one fires. -/
noncomputable def feed_price (d : MovementDetector) (name : String) (p : ℚ) :
    Option MovementSignal × MovementDetector :=
  match lookupOutcome d.outcomes name with
  | none => (none, d)
  | some s =>
    let s1 := s.update_price p
    let d1 := { d with outcomes := updateAssoc d.outcomes name (fun _ => s1) }
    match check_trigger d1 s1 with
    | (some sig, s2, d2) =>
      (some sig, { d2 with
                     outcomes := updateAssoc d2.outcomes name (fun _ => s2),
                     total_signals := d2.total_signals + 1 })
    | (none, _, d2) => (none, d2)

/-- `parse_scale_in_pcts` from src/movement_detector.py.  The Python
function takes a comma-separated string; its tokenization and float parsing
(`value.split` and `float`, whose failure raises `ValueError`) are
abstracted to the argument: `some pcts` is the parsed list when the input is
non-empty and every token parses, `none` stands for an empty or unparseable
input. -/
def parse_scale_in_pcts (parsed : Option (List ℚ)) : List ℚ :=
  match parsed with
  | none => [50, 30, 20]
  | some pcts =>
    if 100 < pcts.sum then
      let total := pcts.sum
      pcts.map (fun p => p * 100 / total)
    else pcts

/-- Outcome of one `_execute_signal` call on the execution side. -/
inductive ExecAction where
  | skipped : ExecAction
  | issued : ℚ → ExecAction
deriving DecidableEq

/-- Budget arithmetic of `MovementBot._execute_signal` and
`WebSocketMovementBot._execute_signal` (identical in both), for the live
path where an execution client is present: compute the notional as
`min(budget * pct/100, budget)`, skip amounts below the 1 USD floor, and
decrement the budget exactly when the execution client reports success.
`success` abstracts `buy_market_order(...).success`. -/
def execute_signal (budget : ℚ) (budget_pct : ℚ) (success : Bool) :
    ℚ × ExecAction :=
  let alloc_pct := budget_pct / 100
  let amount := min (budget * alloc_pct) budget
  if amount < 1 then (budget, ExecAction.skipped)
  else if success then (budget - amount, ExecAction.issued amount)
  else (budget, ExecAction.issued amount)

/-- One step of a per-outcome session: either a price update for the
outcome or a trigger attempt on it (the `_feed_price_to_detector` /
`_check_trigger` call pattern, split into its two effects). -/
inductive DetStep where
  | upd : ℚ → DetStep
  | tri : DetStep

/-- Run a sequence of per-outcome steps, threading the detector, the
outcome's state and the list of emitted signals. -/
noncomputable def runOutcome (start : MovementDetector × OutcomeState × List MovementSignal)
    (steps : List DetStep) : MovementDetector × OutcomeState × List MovementSignal :=
  steps.foldl (fun acc step =>
    match step with
    | DetStep.upd p => (acc.1, acc.2.1.update_price p, acc.2.2)
    | DetStep.tri =>
      match check_trigger acc.1 acc.2.1 with
      | (some sig, s2, d2) => (d2, s2, acc.2.2 ++ [sig])
      | (none, s2, d2) => (d2, s2, acc.2.2)) start

/-- One step of a detector-level session: a polling tick
(`update_prices` on a list of market outcomes) or a push-feed price event
(`_feed_price_to_detector`). -/
inductive BotStep where
  | tick : List MarketOutcome → BotStep
  | feed : String → ℚ → BotStep

/-- Run a sequence of detector-level steps, collecting emitted signals. -/
noncomputable def runDetector (start : MovementDetector × List MovementSignal)
    (steps : List BotStep) : MovementDetector × List MovementSignal :=
  steps.foldl (fun acc step =>
    match step with
    | BotStep.tick mos =>
      let r := acc.1.update_prices mos
      (r.2, acc.2 ++ r.1)
    | BotStep.feed name p =>
      let r := feed_price acc.1 name p
      (r.2, acc.2 ++ r.1.toList)) start

/-! ### Lemmas about the bounded history -/

lemma dequePush_length_le (l : List ℚ) (x : ℚ) : (dequePush l x).length ≤ 60 := by
  unfold dequePush HISTORY_MAXLEN
  simp only [List.length_drop, List.length_append, List.length_singleton]
  omega

lemma dequePush_of_lt {l : List ℚ} (x : ℚ) (h : l.length < 60) :
    dequePush l x = l ++ [x] := by
  unfold dequePush HISTORY_MAXLEN
  simp only [List.length_append, List.length_singleton]
  have h0 : l.length + 1 - 60 = 0 := by omega
  rw [h0, List.drop_zero]

lemma dequePush_of_full {l : List ℚ} (x : ℚ) (h : l.length = 60) :
    dequePush l x = l.drop 1 ++ [x] := by
  unfold dequePush HISTORY_MAXLEN
  simp only [List.length_append, List.length_singleton]
  have h1 : l.length + 1 - 60 = 1 := by omega
  rw [h1, List.drop_append_of_le_length (by omega)]

lemma dequePush_getLast? (l : List ℚ) (x : ℚ) :
    (dequePush l x).getLast? = some x := by
  unfold dequePush HISTORY_MAXLEN
  simp only [List.length_append, List.length_singleton]
  rw [List.drop_append_of_le_length (by omega), List.getLast?_append, List.getLast?_singleton]
  rfl

/-! ### Lemmas about the statistics layer -/

lemma listMean_replicate {n : ℕ} (q : ℚ) (hn : n ≠ 0) :
    listMean (List.replicate n q) = q := by
  unfold listMean
  rw [List.sum_replicate, List.length_replicate, nsmul_eq_mul]
  have : (n : ℚ) ≠ 0 := Nat.cast_ne_zero.mpr hn
  field_simp

lemma sampleVariance_replicate (n : ℕ) (q : ℚ) :
    sampleVariance (List.replicate n q) = 0 := by
  cases n with
  | zero => simp [sampleVariance, listMean]
  | succ m =>
    unfold sampleVariance
    rw [listMean_replicate q (Nat.succ_ne_zero m), List.map_replicate]
    simp

lemma stdev_replicate (n : ℕ) (q : ℚ) : stdev (List.replicate n q) = 0 := by
  unfold stdev
  rw [sampleVariance_replicate]
  simp

/-! ### Lemmas about the z-score -/

lemma get_zscore_of_baseline_none {s : OutcomeState} (h : s.baseline_price = none) :
    s.get_zscore = none := by
  unfold OutcomeState.get_zscore
  rw [h]

lemma get_zscore_of_short {s : OutcomeState} (h : s.price_history.length < 5) :
    s.get_zscore = none := by
  unfold OutcomeState.get_zscore
  rcases hb : s.baseline_price with _ | b <;> rcases hc : s.current_price with _ | c <;>
    simp [h]

/-- Equation lemma for `get_zscore` once both prices are known to be set. -/
lemma get_zscore_eq {s : OutcomeState} {b c : ℚ}
    (hb : s.baseline_price = some b) (hc : s.current_price = some c) :
    s.get_zscore =
      if s.price_history.length < 5 then none
      else if stdev s.price_history < 0.001 then
        (if 0.05 < |c - b| then some (if 0 < c - b then (10 : ℝ) else -10)
         else some 0)
      else some (((c - b : ℚ) : ℝ) / stdev s.price_history) := by
  unfold OutcomeState.get_zscore
  rw [hb, hc]

lemma get_zscore_some {s : OutcomeState} {z : ℝ} (h : s.get_zscore = some z) :
    ∃ b c, s.baseline_price = some b ∧ s.current_price = some c ∧
      5 ≤ s.price_history.length := by
  rcases hb : s.baseline_price with _ | b
  · rw [get_zscore_of_baseline_none hb] at h
    simp at h
  rcases hc : s.current_price with _ | c
  · unfold OutcomeState.get_zscore at h
    rw [hb, hc] at h
    simp at h
  refine ⟨b, c, rfl, rfl, ?_⟩
  by_cases h5 : s.price_history.length < 5
  · rw [get_zscore_of_short h5] at h
    simp at h
  · omega

lemma get_zscore_flat {s : OutcomeState} {b c q : ℚ} {n : ℕ}
    (hb : s.baseline_price = some b) (hc : s.current_price = some c)
    (hh : s.price_history = List.replicate n q) (hn : 5 ≤ n) :
    s.get_zscore =
      some (if 0.05 < |c - b| then (if 0 < c - b then (10 : ℝ) else -10) else 0) := by
  have hlen : s.price_history.length = n := by rw [hh, List.length_replicate]
  have hsd : stdev s.price_history = 0 := by rw [hh, stdev_replicate]
  rw [get_zscore_eq hb hc, if_neg (by omega), if_pos (by rw [hsd]; norm_num)]
  by_cases habs : (0.05 : ℚ) < |c - b|
  · simp [habs]
  · simp [habs]

lemma get_zscore_pos_change {s : OutcomeState} {z : ℝ} {b c : ℚ}
    (hz : s.get_zscore = some z) (hb : s.baseline_price = some b)
    (hc : s.current_price = some c) (h0 : 0 < z) : 0 < c - b := by
  rw [get_zscore_eq hb hc] at hz
  by_cases h5 : s.price_history.length < 5
  · rw [if_pos h5] at hz
    simp at hz
  rw [if_neg h5] at hz
  by_cases hsd : stdev s.price_history < 0.001
  · rw [if_pos hsd] at hz
    by_cases habs : (0.05 : ℚ) < |c - b|
    · rw [if_pos habs] at hz
      by_cases hpos : (0 : ℚ) < c - b
      · exact hpos
      · rw [if_neg hpos] at hz
        simp only [Option.some.injEq] at hz
        rw [← hz] at h0
        norm_num at h0
    · rw [if_neg habs] at hz
      simp only [Option.some.injEq] at hz
      rw [← hz] at h0
      norm_num at h0
  · rw [if_neg hsd] at hz
    simp only [Option.some.injEq] at hz
    push_neg at hsd
    have hsdpos : (0 : ℝ) < stdev s.price_history := lt_of_lt_of_le (by norm_num) hsd
    rw [← hz] at h0
    rcases div_pos_iff.mp h0 with ⟨hnum, _⟩ | ⟨_, hden⟩
    · exact_mod_cast hnum
    · exact absurd hden (not_lt.mpr (le_of_lt hsdpos))

/-! ### Lemmas about the trigger policy -/

lemma check_trigger_of_none {s : OutcomeState} (d : MovementDetector)
    (h : s.get_zscore = none) : check_trigger d s = (none, s, d) := by
  unfold check_trigger
  rw [h]

/-- Equation lemma for `check_trigger` once the z-score and both prices are
known. -/
lemma check_trigger_eq {s : OutcomeState} {z : ℝ} {b c : ℚ} (d : MovementDetector)
    (hz : s.get_zscore = some z) (hb : s.baseline_price = some b)
    (hc : s.current_price = some c) :
    check_trigger d s =
      if z < d.zscore_threshold then (none, s, d)
      else if c - b < d.min_price_change then (none, s, d)
      else if d.max_buy_price < c then (none, s, d)
      else if d.locked_outcome ≠ none ∧ d.locked_outcome ≠ some s.outcome_name then
        (none, s, d)
      else if d.scale_in_pcts.length < s.trigger_count + 1 then (none, s, d)
      else
        (some { outcome_name := s.outcome_name, token_id := s.token_id,
                no_token_id := s.no_token_id, current_price := c,
                baseline_price := b, zscore := z, price_change := c - b,
                price_change_pct := if 0 < b then (c - b) / b * 100 else 0,
                trigger_number := s.trigger_count + 1,
                budget_pct := d.scale_in_pcts.getD (s.trigger_count + 1 - 1) 0 },
         { s with baseline_price := some b, current_price := some c,
                  triggered := true, trigger_count := s.trigger_count + 1 },
         { d with budget_spent_pct :=
                    d.budget_spent_pct +
                      d.scale_in_pcts.getD (s.trigger_count + 1 - 1) 0,
                  locked_outcome := match d.locked_outcome with
                    | none => some s.outcome_name
                    | some x => some x }) := by
  unfold check_trigger
  rw [hz, hb, hc]

/-- Case analysis of `_check_trigger`: it either rejects, leaving state and
detector untouched, or emits a signal whose fields, the updated state and
the updated detector are fully determined, with every guard satisfied. -/
lemma check_trigger_spec (d : MovementDetector) (s : OutcomeState) :
    check_trigger d s = (none, s, d) ∨
    ∃ (z : ℝ) (b c : ℚ),
      s.get_zscore = some z ∧ s.baseline_price = some b ∧
      s.current_price = some c ∧
      d.zscore_threshold ≤ z ∧ d.min_price_change ≤ c - b ∧
      c ≤ d.max_buy_price ∧
      (d.locked_outcome = none ∨ d.locked_outcome = some s.outcome_name) ∧
      s.trigger_count + 1 ≤ d.scale_in_pcts.length ∧
      check_trigger d s =
        (some { outcome_name := s.outcome_name, token_id := s.token_id,
                no_token_id := s.no_token_id, current_price := c,
                baseline_price := b, zscore := z, price_change := c - b,
                price_change_pct := if 0 < b then (c - b) / b * 100 else 0,
                trigger_number := s.trigger_count + 1,
                budget_pct := d.scale_in_pcts.getD (s.trigger_count + 1 - 1) 0 },
         { s with baseline_price := some b, current_price := some c,
                  triggered := true, trigger_count := s.trigger_count + 1 },
         { d with budget_spent_pct :=
                    d.budget_spent_pct +
                      d.scale_in_pcts.getD (s.trigger_count + 1 - 1) 0,
                  locked_outcome := some s.outcome_name }) := by
  rcases hz : s.get_zscore with _ | z
  · exact Or.inl (check_trigger_of_none d hz)
  obtain ⟨b, c, hb, hc, -⟩ := get_zscore_some hz
  rw [check_trigger_eq d hz hb hc]
  by_cases h1 : z < d.zscore_threshold
  · rw [if_pos h1]
    exact Or.inl rfl
  rw [if_neg h1]
  by_cases h2 : c - b < d.min_price_change
  · rw [if_pos h2]
    exact Or.inl rfl
  rw [if_neg h2]
  by_cases h3 : d.max_buy_price < c
  · rw [if_pos h3]
    exact Or.inl rfl
  rw [if_neg h3]
  by_cases h4 : d.locked_outcome ≠ none ∧ d.locked_outcome ≠ some s.outcome_name
  · rw [if_pos h4]
    exact Or.inl rfl
  rw [if_neg h4]
  by_cases h5 : d.scale_in_pcts.length < s.trigger_count + 1
  · rw [if_pos h5]
    exact Or.inl rfl
  rw [if_neg h5]
  right
  push_neg at h4
  have hlock : d.locked_outcome = none ∨ d.locked_outcome = some s.outcome_name := by
    rcases hL : d.locked_outcome with _ | x
    · exact Or.inl rfl
    · rw [hL] at h4
      exact Or.inr (h4 (by simp))
  refine ⟨z, b, c, rfl, hb, hc, not_lt.mp h1, not_lt.mp h2, not_lt.mp h3, hlock,
    not_lt.mp h5, ?_⟩
  rcases hlock with hL | hL <;> rw [hL]

/-- Everything `_check_trigger` guarantees about an emitted signal and the
updated state and detector. -/
lemma check_trigger_emit {d : MovementDetector} {s : OutcomeState}
    {sig : MovementSignal} {s2 : OutcomeState} {d2 : MovementDetector}
    (h : check_trigger d s = (some sig, s2, d2)) :
    ∃ (z : ℝ) (b c : ℚ),
      s.get_zscore = some z ∧ s.baseline_price = some b ∧
      s.current_price = some c ∧
      d.zscore_threshold ≤ z ∧ d.min_price_change ≤ c - b ∧
      c ≤ d.max_buy_price ∧
      (d.locked_outcome = none ∨ d.locked_outcome = some s.outcome_name) ∧
      s.trigger_count + 1 ≤ d.scale_in_pcts.length ∧
      sig.outcome_name = s.outcome_name ∧ sig.zscore = z ∧
      sig.price_change = c - b ∧ sig.current_price = c ∧
      sig.baseline_price = b ∧
      sig.trigger_number = s.trigger_count + 1 ∧
      sig.budget_pct = d.scale_in_pcts.getD s.trigger_count 0 ∧
      s2.outcome_name = s.outcome_name ∧
      s2.trigger_count = s.trigger_count + 1 ∧
      s2.price_history = s.price_history ∧
      d2.zscore_threshold = d.zscore_threshold ∧
      d2.scale_in_pcts = d.scale_in_pcts ∧
      d2.max_buy_price = d.max_buy_price ∧
      d2.min_price_change = d.min_price_change ∧
      d2.locked_outcome = some s.outcome_name := by
  rcases check_trigger_spec d s with hn | ⟨z, b, c, hz, hb, hc, g1, g2, g3, g4, g5, heq⟩
  · rw [h] at hn
    simp at hn
  · rw [h] at heq
    obtain ⟨hsig, hs2, hd2⟩ : sig = _ ∧ s2 = _ ∧ d2 = _ := by
      simpa [Prod.ext_iff] using heq
    subst hsig hs2 hd2
    exact ⟨z, b, c, hz, hb, hc, g1, g2, g3, g4, g5, rfl, rfl, rfl, rfl, rfl, rfl,
      by simp [List.getD], rfl, rfl, rfl, rfl, rfl, rfl, rfl, rfl⟩

/-- When `_check_trigger` rejects, nothing changes. -/
lemma check_trigger_fst_none {d : MovementDetector} {s : OutcomeState}
    (h : (check_trigger d s).1 = none) : check_trigger d s = (none, s, d) := by
  rcases check_trigger_spec d s with hn | ⟨_, _, _, _, _, _, _, _, _, _, _, heq⟩
  · exact hn
  · rw [heq] at h
    simp at h

/-! ### Lemmas about the best-mover scan -/

open MovementDetector

lemma bestStep_none {p : String × OutcomeState} (acc : Option OutcomeState × ℝ)
    (h : p.2.get_zscore = none) : bestStep acc p = acc := by
  unfold bestStep
  rw [h]

lemma bestStep_some {p : String × OutcomeState} {z : ℝ} (acc : Option OutcomeState × ℝ)
    (h : p.2.get_zscore = some z) :
    bestStep acc p = if acc.2 < z then (some p.2, z) else acc := by
  unfold bestStep
  rw [h]

lemma bestStep_cases (acc : Option OutcomeState × ℝ) (p : String × OutcomeState) :
    ((∀ z, p.2.get_zscore = some z → z ≤ acc.2) ∧ bestStep acc p = acc) ∨
    (∃ z, p.2.get_zscore = some z ∧ acc.2 < z ∧ bestStep acc p = (some p.2, z)) := by
  rcases h : p.2.get_zscore with _ | z
  · left
    exact ⟨fun w hw => absurd hw (by simp), bestStep_none acc h⟩
  · by_cases hlt : acc.2 < z
    · right
      exact ⟨z, rfl, hlt, by rw [bestStep_some acc h, if_pos hlt]⟩
    · left
      refine ⟨fun w hw => ?_, by rw [bestStep_some acc h, if_neg hlt]⟩
      injection hw with hw
      rw [← hw]
      exact not_lt.mp hlt

lemma bestScan_aux (os : List (String × OutcomeState)) :
    ∀ acc : Option OutcomeState × ℝ,
      acc.2 ≤ (os.foldl bestStep acc).2 ∧
      (∀ p ∈ os, ∀ z, p.2.get_zscore = some z → z ≤ (os.foldl bestStep acc).2) ∧
      (os.foldl bestStep acc = acc ∨
        ∃ st, (os.foldl bestStep acc).1 = some st ∧
          st.get_zscore = some (os.foldl bestStep acc).2 ∧
          acc.2 < (os.foldl bestStep acc).2) := by
  induction os with
  | nil => exact fun acc => ⟨le_refl _, by simp, Or.inl rfl⟩
  | cons p rest ih =>
    intro acc
    rw [List.foldl_cons]
    rcases bestStep_cases acc p with ⟨hmono, hstep⟩ | ⟨z, hz, hlt, hstep⟩
    · rw [hstep]
      obtain ⟨ih1, ih2, ih3⟩ := ih acc
      refine ⟨ih1, ?_, ih3⟩
      intro q hq w hw
      rcases List.mem_cons.mp hq with rfl | hq2
      · exact le_trans (hmono w hw) ih1
      · exact ih2 q hq2 w hw
    · rw [hstep]
      obtain ⟨ih1, ih2, ih3⟩ := ih (some p.2, z)
      refine ⟨le_trans (le_of_lt hlt) ih1, ?_, ?_⟩
      · intro q hq w hw
        rcases List.mem_cons.mp hq with rfl | hq2
        · rw [hz] at hw
          injection hw with hw
          rw [← hw]
          exact ih1
        · exact ih2 q hq2 w hw
      · rcases ih3 with heq | ⟨st, e1, e2, e3⟩
        · right
          rw [heq]
          exact ⟨p.2, rfl, hz, hlt⟩
        · right
          exact ⟨st, e1, e2, lt_trans hlt e3⟩

/-- When the best-mover scan selects a state, that state's z-score equals
the running best, is strictly positive, and dominates every tracked
outcome's z-score. -/
lemma bestScan_fst_some {os : List (String × OutcomeState)} {st : OutcomeState}
    (h : (MovementDetector.bestScan os).1 = some st) :
    st.get_zscore = some (MovementDetector.bestScan os).2 ∧
    0 < (MovementDetector.bestScan os).2 ∧
    ∀ p ∈ os, ∀ z, p.2.get_zscore = some z → z ≤ (MovementDetector.bestScan os).2 := by
  obtain ⟨a1, a2, a3⟩ := bestScan_aux os (none, 0)
  unfold MovementDetector.bestScan at h ⊢
  rcases a3 with heq | ⟨st2, e1, e2, e3⟩
  · rw [heq] at h
    simp at h
  · rw [e1] at h
    injection h with h
    rw [← h]
    exact ⟨e2, e3, a2⟩

/-! ### Lemmas about the per-tick entry point -/

lemma update_prices_not_baseline {d : MovementDetector} (mos : List MarketOutcome)
    (h : d.baseline_set = false) : d.update_prices mos = ([], d) := by
  unfold MovementDetector.update_prices
  rw [if_neg (by simp [h])]

lemma update_prices_eq {d : MovementDetector} (mos : List MarketOutcome)
    (h : d.baseline_set = true) :
    d.update_prices mos =
      (match (bestScan (firstPass d.outcomes mos)).1 with
       | none => ([], { d with outcomes := firstPass d.outcomes mos })
       | some best_state =>
         match check_trigger { d with outcomes := firstPass d.outcomes mos }
             best_state with
         | (some sig, s2, d2) =>
           ([sig], { d2 with
                       outcomes := updateAssoc d2.outcomes best_state.outcome_name
                         (fun _ => s2),
                       total_signals := d2.total_signals + 1 })
         | (none, _, d2) => ([], d2)) := by
  unfold MovementDetector.update_prices
  rw [if_pos h]

/-- Case analysis of one `update_prices` tick: either no signal is emitted
and the lock is unchanged, or exactly one signal is emitted, its z-score is
strictly positive and dominates every tracked outcome's z-score after the
price pass, the lock admitted its outcome beforehand and points at its
outcome afterwards. -/
lemma update_prices_spec (d : MovementDetector) (mos : List MarketOutcome) :
    ((d.update_prices mos).1 = [] ∧
     (d.update_prices mos).2.locked_outcome = d.locked_outcome) ∨
    (∃ sig, (d.update_prices mos).1 = [sig] ∧ 0 < sig.zscore ∧
      (∀ p ∈ firstPass d.outcomes mos, ∀ z,
        p.2.get_zscore = some z → z ≤ sig.zscore) ∧
      (d.locked_outcome = none ∨ d.locked_outcome = some sig.outcome_name) ∧
      (d.update_prices mos).2.locked_outcome = some sig.outcome_name) := by
  by_cases hbs : d.baseline_set = true
  · rw [update_prices_eq mos hbs]
    rcases hbest : (bestScan (firstPass d.outcomes mos)).1 with _ | st
    · exact Or.inl ⟨rfl, rfl⟩
    · obtain ⟨hzb, hpos, hmax⟩ := bestScan_fst_some hbest
      simp only []
      rcases hct : check_trigger { d with outcomes := firstPass d.outcomes mos } st
        with ⟨_ | sig, s2, d2⟩
      · simp only []
        have h1 : (check_trigger { d with outcomes := firstPass d.outcomes mos } st).1 = none := by rw [hct]
        have hfr := check_trigger_fst_none h1
        rw [hct] at hfr
        have hd2 : d2 = { d with outcomes := firstPass d.outcomes mos } :=
          congrArg (fun t => t.2.2) hfr
        subst hd2
        exact Or.inl ⟨trivial, rfl⟩
      · simp only []
        obtain ⟨z, b, c, hz, -, -, -, -, -, hlock, -, hname, hzeq, -, -, -, -, -, -,
          -, -, -, -, -, -, hlock2⟩ := check_trigger_emit hct
        have hz2 : z = (bestScan (firstPass d.outcomes mos)).2 := by
          rw [hz] at hzb
          injection hzb
        right
        refine ⟨sig, rfl, ?_, ?_, ?_, ?_⟩
        · rw [hzeq, hz2]
          exact hpos
        · intro p hp w hw
          rw [hzeq, hz2]
          exact hmax p hp w hw
        · rw [hname]
          exact hlock
        · rw [hname]
          exact hlock2
  · have hbs2 : d.baseline_set = false := by
      revert hbs
      cases d.baseline_set <;> simp
    rw [update_prices_not_baseline mos hbs2]
    exact Or.inl ⟨rfl, rfl⟩

/-! ### Lemmas about the push-feed path -/

lemma feed_price_of_missing {d : MovementDetector} {name : String} (p : ℚ)
    (h : lookupOutcome d.outcomes name = none) : feed_price d name p = (none, d) := by
  unfold feed_price
  rw [h]

lemma feed_price_eq {d : MovementDetector} {name : String} {s : OutcomeState} (p : ℚ)
    (h : lookupOutcome d.outcomes name = some s) :
    feed_price d name p =
      (match check_trigger
          { d with outcomes := updateAssoc d.outcomes name (fun _ => s.update_price p) }
          (s.update_price p) with
       | (some sig, s2, d2) =>
         (some sig, { d2 with
                        outcomes := updateAssoc d2.outcomes name (fun _ => s2),
                        total_signals := d2.total_signals + 1 })
       | (none, _, d2) => (none, d2)) := by
  unfold feed_price
  rw [h]

/-- Case analysis of one push-feed price event: either no signal and the
lock is unchanged, or one signal whose outcome the lock admitted beforehand
and points at afterwards. -/
lemma feed_price_spec (d : MovementDetector) (name : String) (p : ℚ) :
    ((feed_price d name p).1 = none ∧
     (feed_price d name p).2.locked_outcome = d.locked_outcome) ∨
    (∃ sig, (feed_price d name p).1 = some sig ∧
      (d.locked_outcome = none ∨ d.locked_outcome = some sig.outcome_name) ∧
      (feed_price d name p).2.locked_outcome = some sig.outcome_name) := by
  rcases hl : lookupOutcome d.outcomes name with _ | s
  · rw [feed_price_of_missing p hl]
    exact Or.inl ⟨rfl, rfl⟩
  · rw [feed_price_eq p hl]
    rcases hct : check_trigger
        { d with outcomes := updateAssoc d.outcomes name (fun _ => s.update_price p) }
        (s.update_price p) with ⟨_ | sig, s2, d2⟩
    · simp only []
      have h1 : (check_trigger { d with outcomes := updateAssoc d.outcomes name (fun _ => s.update_price p) } (s.update_price p)).1 = none := by rw [hct]
      have hfr := check_trigger_fst_none h1
      rw [hct] at hfr
      have hd2 : d2 = { d with outcomes := updateAssoc d.outcomes name (fun _ => s.update_price p) } :=
        congrArg (fun t => t.2.2) hfr
      subst hd2
      exact Or.inl ⟨trivial, rfl⟩
    · simp only []
      obtain ⟨z, b, c, -, -, -, -, -, -, hlock, -, hname, -, -, -, -, -, -, -, -, -,
        -, -, -, -, hlock2⟩ := check_trigger_emit hct
      right
      refine ⟨sig, rfl, ?_, ?_⟩
      · rw [hname]
        exact hlock
      · rw [hname]
        exact hlock2

/-! ### The scale-in invariant along per-outcome runs -/

lemma runOutcome_cons_upd (d : MovementDetector) (s : OutcomeState)
    (sigs : List MovementSignal) (p : ℚ) (rest : List DetStep) :
    runOutcome (d, s, sigs) (DetStep.upd p :: rest) =
    runOutcome (d, s.update_price p, sigs) rest := rfl

lemma runOutcome_cons_tri_none {d : MovementDetector} {s : OutcomeState}
    (sigs : List MovementSignal) (rest : List DetStep)
    {s2 : OutcomeState} {d2 : MovementDetector}
    (h : check_trigger d s = (none, s2, d2)) :
    runOutcome (d, s, sigs) (DetStep.tri :: rest) =
    runOutcome (d2, s2, sigs) rest := by
  unfold runOutcome
  rw [List.foldl_cons]
  simp only [h]

lemma runOutcome_cons_tri_some {d : MovementDetector} {s : OutcomeState}
    (sigs : List MovementSignal) (rest : List DetStep)
    {sig : MovementSignal} {s2 : OutcomeState} {d2 : MovementDetector}
    (h : check_trigger d s = (some sig, s2, d2)) :
    runOutcome (d, s, sigs) (DetStep.tri :: rest) =
    runOutcome (d2, s2, sigs ++ [sig]) rest := by
  unfold runOutcome
  rw [List.foldl_cons]
  simp only [h]

/-- Appending one well-formed signal to a well-formed trace keeps the trace
well formed. -/
lemma sigTrace_snoc (pcts : List ℚ) (base : ℕ) (sigs : List MovementSignal)
    (g : MovementSignal)
    (hidx : ∀ i (hi : i < sigs.length),
      (sigs.get ⟨i, hi⟩).trigger_number = base + i + 1 ∧
      base + i < pcts.length ∧
      (sigs.get ⟨i, hi⟩).budget_pct = pcts.getD (base + i) 0)
    (hg1 : g.trigger_number = base + sigs.length + 1)
    (hg2 : base + sigs.length < pcts.length)
    (hg3 : g.budget_pct = pcts.getD (base + sigs.length) 0) :
    ∀ i (hi : i < (sigs ++ [g]).length),
      ((sigs ++ [g]).get ⟨i, hi⟩).trigger_number = base + i + 1 ∧
      base + i < pcts.length ∧
      ((sigs ++ [g]).get ⟨i, hi⟩).budget_pct = pcts.getD (base + i) 0 := by
  intro i hi
  simp only [List.get_eq_getElem]
  rw [List.length_append, List.length_singleton] at hi
  by_cases hlt : i < sigs.length
  · rw [List.getElem_append_left hlt]
    have hold := hidx i hlt
    simp only [List.get_eq_getElem] at hold
    exact hold
  · have hieq : i = sigs.length := by omega
    subst hieq
    rw [List.getElem_concat_length sigs g _ rfl]
    exact ⟨hg1, hg2, hg3⟩

/-- Invariant threading a per-outcome run: the schedule is never modified,
the state's `trigger_count` counts the signals emitted so far (offset by
`base`), and the i-th collected signal carries trigger number `base + i + 1`
and the scale-in percentage at index `base + i`. -/
lemma runOutcome_inv (steps : List DetStep) :
    ∀ (d : MovementDetector) (s : OutcomeState) (sigs : List MovementSignal)
      (pcts : List ℚ) (base : ℕ),
      d.scale_in_pcts = pcts →
      s.trigger_count = base + sigs.length →
      (∀ i (hi : i < sigs.length),
        (sigs.get ⟨i, hi⟩).trigger_number = base + i + 1 ∧
        base + i < pcts.length ∧
        (sigs.get ⟨i, hi⟩).budget_pct = pcts.getD (base + i) 0) →
      ((runOutcome (d, s, sigs) steps).1.scale_in_pcts = pcts ∧
       (runOutcome (d, s, sigs) steps).2.1.trigger_count =
         base + (runOutcome (d, s, sigs) steps).2.2.length ∧
       (∀ i (hi : i < (runOutcome (d, s, sigs) steps).2.2.length),
         ((runOutcome (d, s, sigs) steps).2.2.get ⟨i, hi⟩).trigger_number =
           base + i + 1 ∧
         base + i < pcts.length ∧
         ((runOutcome (d, s, sigs) steps).2.2.get ⟨i, hi⟩).budget_pct =
           pcts.getD (base + i) 0)) := by
  induction steps with
  | nil => exact fun d s sigs pcts base hpcts htc hidx => ⟨hpcts, htc, hidx⟩
  | cons step rest ih =>
    intro d s sigs pcts base hpcts htc hidx
    cases step with
    | upd p =>
      rw [runOutcome_cons_upd]
      exact ih d (s.update_price p) sigs pcts base hpcts htc hidx
    | tri =>
      rcases check_trigger_spec d s with hnone | ⟨z, b, c, hz, hb, hc, -, -, -, -,
        g5, heq⟩
      · rw [runOutcome_cons_tri_none sigs rest hnone]
        exact ih d s sigs pcts base hpcts htc hidx
      · rw [runOutcome_cons_tri_some sigs rest heq]
        apply ih
        · exact hpcts
        · show s.trigger_count + 1 = base + (sigs ++ [_]).length
          rw [List.length_append, List.length_singleton, htc]
          omega
        · apply sigTrace_snoc pcts base sigs _ hidx
          · show s.trigger_count + 1 = base + sigs.length + 1
            rw [htc]
          · rw [hpcts] at g5
            omega
          · show d.scale_in_pcts.getD (s.trigger_count + 1 - 1) 0 =
              pcts.getD (base + sigs.length) 0
            rw [Nat.add_sub_cancel, htc, hpcts]

/-! ### The lock invariant along detector-level runs -/

/-- Invariant: every signal collected so far names the outcome the detector
is locked to, and this survives any further tick or feed step. -/
lemma runDetector_lock_inv (steps : List BotStep) :
    ∀ (d : MovementDetector) (sigs : List MovementSignal),
      (∀ g ∈ sigs, d.locked_outcome = some g.outcome_name) →
      ∀ g ∈ (runDetector (d, sigs) steps).2,
        (runDetector (d, sigs) steps).1.locked_outcome = some g.outcome_name := by
  induction steps with
  | nil => exact fun d sigs h g hg => h g hg
  | cons step rest ih =>
    intro d sigs h
    cases step with
    | tick mos =>
      show ∀ g ∈ (runDetector ((d.update_prices mos).2,
          sigs ++ (d.update_prices mos).1) rest).2, _
      apply ih
      intro g hg
      rcases update_prices_spec d mos with ⟨h1, h2⟩ | ⟨sig, h1, -, -, hpre, hpost⟩
      · rw [h1] at hg
        simp only [List.append_nil] at hg
        rw [h2]
        exact h g hg
      · rw [h1] at hg
        rcases List.mem_append.mp hg with hg2 | hg2
        · have hd := h g hg2
          rcases hpre with hp | hp
          · rw [hd] at hp
            exact absurd hp (by simp)
          · rw [hd] at hp
            injection hp with hp
            rw [hpost, ← hp]
        · have : g = sig := by simpa using hg2
          rw [this]
          exact hpost
    | feed name p =>
      show ∀ g ∈ (runDetector ((feed_price d name p).2,
          sigs ++ (feed_price d name p).1.toList) rest).2, _
      apply ih
      intro g hg
      rcases feed_price_spec d name p with ⟨h1, h2⟩ | ⟨sig, h1, hpre, hpost⟩
      · rw [h1] at hg
        simp only [Option.toList_none, List.append_nil] at hg
        rw [h2]
        exact h g hg
      · rw [h1] at hg
        rcases List.mem_append.mp hg with hg2 | hg2
        · have hd := h g hg2
          rcases hpre with hp | hp
          · rw [hd] at hp
            exact absurd hp (by simp)
          · rw [hd] at hp
            injection hp with hp
            rw [hpost, ← hp]
        · have : g = sig := by simpa using hg2
          rw [this]
          exact hpost

/-! ### A concrete scenario: two tied flat-history outcomes -/

/-- An outcome whose history is flat at 0.6 against a 0.4 baseline: its
z-score saturates at +10.  Such a state arises after the baseline seed has
been evicted from the bounded history by 60 later quotes at 0.6. -/
def stFlatA : OutcomeState :=
  { outcome_name := "A", token_id := "TA", no_token_id := none,
    price_history := List.replicate 5 (3/5), baseline_price := some (2/5),
    current_price := some (3/5), triggered := false, trigger_count := 0 }

/-- A second outcome in the identical situation, so its z-score ties
stFlatA's. -/
def stFlatB : OutcomeState :=
  { stFlatA with outcome_name := "B", token_id := "TB" }

/-- A detector with its baseline set, tracking the two tied outcomes, all
thresholds at their defaults. -/
def dTie : MovementDetector :=
  { outcomes := [("A", stFlatA), ("B", stFlatB)], baseline_set := true }

/-- The signal the detector emits for outcome A in this scenario. -/
def sigA : MovementSignal :=
  { outcome_name := "A", token_id := "TA", no_token_id := none,
    current_price := 3/5, baseline_price := 2/5, zscore := 10,
    price_change := 1/5, price_change_pct := 50, trigger_number := 1,
    budget_pct := 50 }

/-- Outcome A's state after the trigger. -/
def stFlatA_after : OutcomeState :=
  { stFlatA with triggered := true, trigger_count := 1 }

/-- The detector scalars after the trigger. -/
def dTie_after : MovementDetector :=
  { dTie with budget_spent_pct := 50, locked_outcome := some "A" }

/-- The detector after one full `update_prices` tick in this scenario. -/
def dTie_final : MovementDetector :=
  { dTie with
    outcomes := [("A", stFlatA_after), ("B", stFlatB)]
    total_signals := 1
    budget_spent_pct := 50
    locked_outcome := some "A" }

lemma stFlatA_zscore : stFlatA.get_zscore = some 10 := by
  rw [get_zscore_flat (b := 2/5) (c := 3/5) (q := 3/5) (n := 5) rfl rfl rfl
    (by norm_num)]
  have habs : |(3 : ℚ)/5 - 2/5| = 1/5 := by
    rw [abs_of_pos] <;> norm_num
  rw [habs]
  norm_num

lemma stFlatB_zscore : stFlatB.get_zscore = some 10 := by
  rw [get_zscore_flat (b := 2/5) (c := 3/5) (q := 3/5) (n := 5) rfl rfl rfl
    (by norm_num)]
  have habs : |(3 : ℚ)/5 - 2/5| = 1/5 := by
    rw [abs_of_pos] <;> norm_num
  rw [habs]
  norm_num

lemma check_trigger_dTie :
    check_trigger dTie stFlatA = (some sigA, stFlatA_after, dTie_after) := by
  rw [check_trigger_eq dTie stFlatA_zscore rfl rfl]
  rw [if_neg (by norm_num [dTie]), if_neg (by norm_num [dTie]),
    if_neg (by norm_num [dTie]), if_neg (by simp [dTie]),
    if_neg (by norm_num [dTie, stFlatA])]
  norm_num [sigA, stFlatA_after, dTie_after, dTie, stFlatA, Prod.ext_iff,
    MovementSignal.mk.injEq, OutcomeState.mk.injEq, MovementDetector.mk.injEq,
    List.getD]

lemma bestScan_dTie : bestScan dTie.outcomes = (some stFlatA, 10) := by
  have h1 : bestStep (none, 0) ("A", stFlatA) = (some stFlatA, 10) := by
    rw [bestStep_some _ stFlatA_zscore, if_pos (by norm_num)]
  have h2 : bestStep (some stFlatA, (10 : ℝ)) ("B", stFlatB) = (some stFlatA, 10) := by
    rw [bestStep_some _ stFlatB_zscore, if_neg (by norm_num)]
  show List.foldl bestStep (none, 0) dTie.outcomes = (some stFlatA, 10)
  rw [show dTie.outcomes = [("A", stFlatA), ("B", stFlatB)] from rfl,
    List.foldl_cons, h1, List.foldl_cons, h2, List.foldl_nil]

lemma str_B_ne_A : (("B" : String) = "A") = False := eq_false (by decide)

lemma str_A_ne_B : (("A" : String) = "B") = False := eq_false (by decide)

lemma update_prices_dTie : dTie.update_prices [] = ([sigA], dTie_final) := by
  rw [update_prices_eq [] rfl]
  rw [show firstPass dTie.outcomes [] = dTie.outcomes from rfl]
  rw [bestScan_dTie]
  simp only []
  rw [show ({ dTie with outcomes := dTie.outcomes } : MovementDetector) = dTie
    from rfl]
  rw [check_trigger_dTie]
  simp only []
  norm_num [updateAssoc, dTie_after, dTie, dTie_final, stFlatA, stFlatB,
    stFlatA_after, Prod.ext_iff, MovementDetector.mk.injEq, str_B_ne_A]

lemma runDetector_dTie :
    runDetector (dTie, []) [BotStep.tick []] = (dTie_final, [sigA]) := by
  show ((dTie.update_prices []).2, [] ++ (dTie.update_prices []).1) =
    (dTie_final, [sigA])
  rw [update_prices_dTie]
  rfl

lemma runOutcome_dTie :
    runOutcome (dTie, stFlatA, []) [DetStep.tri] =
      (dTie_after, stFlatA_after, [sigA]) := by
  rw [runOutcome_cons_tri_some [] [] check_trigger_dTie]
  rfl

/-! ### Auxiliary bounds for the history claims -/

lemma dequePush_length_le_succ (l : List ℚ) (x : ℚ) :
    (dequePush l x).length ≤ l.length + 1 := by
  unfold dequePush HISTORY_MAXLEN
  simp only [List.length_drop, List.length_append, List.length_singleton]
  omega

lemma foldl_update_price_length (ps : List ℚ) :
    ∀ s : OutcomeState, s.price_history.length ≤ 60 →
      (ps.foldl OutcomeState.update_price s).price_history.length ≤ 60 := by
  induction ps with
  | nil => exact fun s h => h
  | cons q rest ih =>
    intro s h
    rw [List.foldl_cons]
    exact ih _ (dequePush_length_le s.price_history q)

lemma foldl_update_price_length_le (ps : List ℚ) :
    ∀ s : OutcomeState,
      (ps.foldl OutcomeState.update_price s).price_history.length ≤
        s.price_history.length + ps.length := by
  induction ps with
  | nil => intro s; simp
  | cons q rest ih =>
    intro s
    rw [List.foldl_cons]
    have h1 := ih (s.update_price q)
    have h2 := dequePush_length_le_succ s.price_history q
    have h3 : (s.update_price q).price_history.length =
        (dequePush s.price_history q).length := rfl
    simp only [List.length_cons]
    omega

/-! ### Claim theorems -/

/-- Claim C10: when the baseline has not been set, `update_prices` returns
the empty signal list and leaves the detector completely unchanged, for
every input list of market outcomes. -/
theorem update_prices_uninitialized_frame (d : MovementDetector)
    (mos : List MarketOutcome) (h : d.baseline_set = false) :
    d.update_prices mos = ([], d) :=
  update_prices_not_baseline mos h

/-- A freshly constructed detector: all defaults, baseline not set. -/
def dFresh : MovementDetector := {}

/-- A market outcome carrying a retrievable best ask. -/
def moA : MarketOutcome := { outcome := "A", token_id := "TA", best_ask := some (1/2) }

/-- Witness for claim C10 at a fresh detector and a nonempty tick. -/
theorem update_prices_uninitialized_frame_witness :
    dFresh.update_prices [moA] = ([], dFresh) :=
  update_prices_uninitialized_frame dFresh [moA] rfl

/-- Claim C9: the price history never exceeds 60 entries along any sequence
of `update_price` calls; a full history evicts exactly its oldest entry
(FIFO), a non-full history just appends, and `current_price` is always the
most recently appended element after any update. -/
theorem price_history_bound (s : OutcomeState) (ps : List ℚ) (p : ℚ)
    (hlen : s.price_history.length ≤ 60) :
    (ps.foldl OutcomeState.update_price s).price_history.length ≤ 60 ∧
    (s.update_price p).current_price = some p ∧
    (s.update_price p).price_history.getLast? = some p ∧
    (s.price_history.length = 60 →
      (s.update_price p).price_history = s.price_history.drop 1 ++ [p]) ∧
    (s.price_history.length < 60 →
      (s.update_price p).price_history = s.price_history ++ [p]) := by
  refine ⟨foldl_update_price_length ps s hlen, rfl, dequePush_getLast? _ _, ?_, ?_⟩
  · exact fun h => dequePush_of_full p h
  · exact fun h => dequePush_of_lt p h

/-- Witness for claim C9 at a 5-entry history. -/
theorem price_history_bound_witness :
    stFlatA.price_history.length ≤ 60 ∧
    (stFlatA.update_price (1/2)).current_price = some (1/2) :=
  ⟨by norm_num [stFlatA], (price_history_bound stFlatA [] (1/2)
    (by norm_num [stFlatA])).2.1⟩

/-- Claim C6: `get_zscore` returns `none` whenever no baseline is set, and
whenever the history holds fewer than 5 observations — in particular after
`set_baseline` followed by fewer than 4 price updates — regardless of the
price values. -/
theorem zscore_significance_floor (s : OutcomeState) (b : ℚ) (ps : List ℚ) :
    (s.baseline_price = none → s.get_zscore = none) ∧
    (s.price_history.length < 5 → s.get_zscore = none) ∧
    (ps.length < 4 →
      (ps.foldl OutcomeState.update_price (s.set_baseline b)).get_zscore =
        none) := by
  refine ⟨get_zscore_of_baseline_none, get_zscore_of_short, ?_⟩
  intro h
  apply get_zscore_of_short
  have h1 := foldl_update_price_length_le ps (s.set_baseline b)
  have h2 : (s.set_baseline b).price_history.length = 1 := rfl
  omega

/-- An outcome state with no baseline. -/
def stEmpty : OutcomeState := { outcome_name := "X", token_id := "T" }

/-- Witness for claim C6 at a baseline-free state. -/
theorem zscore_significance_floor_witness : stEmpty.get_zscore = none :=
  (zscore_significance_floor stEmpty 0 []).1 rfl

/-- Claim C5: with a baseline, a current price and at least 5 observations,
`get_zscore` saturates to exactly +10.0 / -10.0 / 0.0 when the sample
standard deviation is below 0.001 (according to the sign and size of the
move), and otherwise returns `(current - baseline) / stdev(history)`. -/
theorem zscore_saturation (s : OutcomeState) (b c : ℚ)
    (hb : s.baseline_price = some b) (hc : s.current_price = some c)
    (h5 : 5 ≤ s.price_history.length) :
    (stdev s.price_history < 0.001 →
      ((0.05 < c - b → s.get_zscore = some 10) ∧
       (c - b < -0.05 → s.get_zscore = some (-10)) ∧
       (|c - b| ≤ 0.05 → s.get_zscore = some 0))) ∧
    (0.001 ≤ stdev s.price_history →
      s.get_zscore = some (((c - b : ℚ) : ℝ) / stdev s.price_history)) := by
  rw [get_zscore_eq hb hc, if_neg (by omega)]
  constructor
  · intro hsd
    rw [if_pos hsd]
    refine ⟨?_, ?_, ?_⟩
    · intro h
      rw [if_pos (lt_of_lt_of_le h (le_abs_self _)), if_pos (by linarith)]
    · intro h
      have h2 : (0.05 : ℚ) < |c - b| :=
        lt_of_lt_of_le (by linarith) (neg_le_abs _)
      rw [if_pos h2, if_neg (by linarith)]
    · intro h
      rw [if_neg (not_lt.mpr h)]
  · intro hsd
    rw [if_neg (not_lt.mpr hsd)]

/-- Witness for claim C5 at the flat-history state: the z-score saturates
to exactly +10. -/
theorem zscore_saturation_witness : stFlatA.get_zscore = some 10 :=
  ((zscore_saturation stFlatA (2/5) (3/5) rfl rfl (by norm_num [stFlatA])).1
    (by rw [show stFlatA.price_history = List.replicate 5 (3/5) from rfl,
      stdev_replicate]; norm_num)).1 (by norm_num)

/-- Claim C7: with a positive z-score threshold, `_check_trigger` emits no
signal when the absolute price change since baseline is below
`min_price_change`, and every emitted signal carries a price change of
absolute value at least `min_price_change`. -/
theorem min_price_change_filter (d : MovementDetector) (s : OutcomeState)
    (b c : ℚ) (hthr : 0 < d.zscore_threshold)
    (hb : s.baseline_price = some b) (hc : s.current_price = some c) :
    (|c - b| < d.min_price_change → (check_trigger d s).1 = none) ∧
    (∀ sig s2 d2, check_trigger d s = (some sig, s2, d2) →
      sig.price_change = c - b ∧ d.min_price_change ≤ |sig.price_change|) := by
  constructor
  · intro habs
    rcases check_trigger_spec d s with hn | ⟨z, b2, c2, hz, hb2, hc2, -, g2, -,
      -, -, heq⟩
    · rw [hn]
    · rw [hb] at hb2
      injection hb2 with hb2
      rw [hc] at hc2
      injection hc2 with hc2
      subst hb2
      subst hc2
      have hle : d.min_price_change ≤ |c - b| := le_trans g2 (le_abs_self _)
      exact absurd habs (not_lt.mpr hle)
  · intro sig s2 d2 hct
    obtain ⟨z, b2, c2, -, hb2, hc2, -, g2, -, -, -, -, -, hpc, -, -, -, -, -, -,
      -, -, -, -, -⟩ := check_trigger_emit hct
    rw [hb] at hb2
    injection hb2 with hb2
    rw [hc] at hc2
    injection hc2 with hc2
    subst hb2
    subst hc2
    refine ⟨hpc, ?_⟩
    rw [hpc]
    exact le_trans g2 (le_abs_self _)

/-- Witness for claim C7 at the concrete emission scenario. -/
theorem min_price_change_filter_witness :
    sigA.price_change = 3/5 - 2/5 ∧ dTie.min_price_change ≤ |sigA.price_change| :=
  (min_price_change_filter dTie stFlatA (2/5) (3/5) (by norm_num [dTie])
    rfl rfl).2 sigA stFlatA_after dTie_after check_trigger_dTie

/-- Claim C1 (amended): every `update_prices` tick emits at most one
signal; an emitted signal has a strictly positive z-score that is greater
than or equal to the z-score of every outcome tracked after the price pass
(on a tie, the earliest-tracked tied outcome is the candidate; non-positive
z-scores are never candidates). -/
theorem update_prices_single_best (d : MovementDetector)
    (mos : List MarketOutcome) :
    (d.update_prices mos).1.length ≤ 1 ∧
    ∀ sig ∈ (d.update_prices mos).1,
      0 < sig.zscore ∧
      ∀ p ∈ firstPass d.outcomes mos, ∀ z,
        p.2.get_zscore = some z → z ≤ sig.zscore := by
  rcases update_prices_spec d mos with ⟨h1, -⟩ | ⟨sig, h1, h2, h3, -, -⟩
  · rw [h1]
    exact ⟨by simp, by simp⟩
  · rw [h1]
    refine ⟨by simp, ?_⟩
    intro g hg
    have hgs : g = sig := by simpa using hg
    subst hgs
    exact ⟨h2, h3⟩

/-- Witness for claim C1's amended theorem at the tied scenario. -/
theorem update_prices_single_best_witness :
    (dTie.update_prices []).1.length ≤ 1 ∧ 0 < sigA.zscore :=
  ⟨(update_prices_single_best dTie []).1,
   ((update_prices_single_best dTie []).2 sigA
     (by rw [update_prices_dTie]; simp)).1⟩

/-- Counterexample to claim C1 as stated: in `dTie` the outcomes A and B
tie for the highest z-score (both +10), yet `update_prices` emits a signal
(for A) — the claim demands that a tie leaves no candidate, and the emitted
signal's outcome does not have a strictly higher z-score than every other
tracked outcome. -/
theorem update_prices_tie_counterexample :
    ((dTie.update_prices []).1.map (fun g => (g.outcome_name, g.zscore))) =
      [("A", (10 : ℝ))] ∧
    lookupOutcome dTie.outcomes "A" = some stFlatA ∧
    lookupOutcome dTie.outcomes "B" = some stFlatB ∧
    stFlatA.get_zscore = some (10 : ℝ) ∧
    stFlatB.get_zscore = some (10 : ℝ) ∧
    ("B" : String) ≠ "A" := by
  refine ⟨?_, ?_, ?_, stFlatA_zscore, stFlatB_zscore, by decide⟩
  · rw [update_prices_dTie]
    simp [sigA]
  · simp [lookupOutcome, dTie, List.find?]
  · simp [lookupOutcome, dTie, List.find?, str_A_ne_B]

/-- Claim C2: all signals produced along any reset-free sequence of
`update_prices` ticks and push-feed events on one detector are for one and
the same outcome, and `reset()` clears the lock. -/
theorem detector_lock_invariant (d : MovementDetector) (steps : List BotStep)
    (g1 g2 : MovementSignal)
    (h1 : g1 ∈ (runDetector (d, []) steps).2)
    (h2 : g2 ∈ (runDetector (d, []) steps).2) :
    g1.outcome_name = g2.outcome_name ∧
    ((runDetector (d, []) steps).1.reset).locked_outcome = none := by
  have hinv := runDetector_lock_inv steps d [] (by simp)
  have e1 := hinv g1 h1
  have e2 := hinv g2 h2
  rw [e1] at e2
  injection e2 with e2
  exact ⟨e2, rfl⟩

/-- Witness for claim C2 at a run that emits one signal. -/
theorem detector_lock_invariant_witness :
    sigA.outcome_name = sigA.outcome_name ∧
    ((runDetector (dTie, []) [BotStep.tick []]).1.reset).locked_outcome =
      none :=
  detector_lock_invariant dTie [BotStep.tick []] sigA sigA
    (by rw [runDetector_dTie]; simp) (by rw [runDetector_dTie]; simp)

/-- Claim C3: along any sequence of price updates and trigger attempts on a
fresh outcome, at most `len(scale_in_pcts)` signals are emitted for it, and
the i-th signal (0-based) carries trigger number `i + 1` and budget
percentage `scale_in_pcts[i]`. -/
theorem scale_in_exhaustion (d : MovementDetector) (s : OutcomeState)
    (steps : List DetStep) (h0 : s.trigger_count = 0) :
    (runOutcome (d, s, []) steps).2.2.length ≤ d.scale_in_pcts.length ∧
    ∀ i (hi : i < (runOutcome (d, s, []) steps).2.2.length),
      ((runOutcome (d, s, []) steps).2.2.get ⟨i, hi⟩).trigger_number = i + 1 ∧
      i < d.scale_in_pcts.length ∧
      ((runOutcome (d, s, []) steps).2.2.get ⟨i, hi⟩).budget_pct =
        d.scale_in_pcts.getD i 0 := by
  obtain ⟨-, -, r3⟩ := runOutcome_inv steps d s [] d.scale_in_pcts 0 rfl
    (by simpa using h0) (by intro i hi; simp at hi)
  constructor
  · by_cases hl : (runOutcome (d, s, []) steps).2.2.length = 0
    · rw [hl]
      exact Nat.zero_le _
    · have hlast := (r3 ((runOutcome (d, s, []) steps).2.2.length - 1)
        (by omega)).2.1
      omega
  · intro i hi
    have h := r3 i hi
    simpa using h

/-- Witness for claim C3 at a fresh outcome and one trigger attempt. -/
theorem scale_in_exhaustion_witness :
    stFlatA.trigger_count = 0 ∧
    (runOutcome (dTie, stFlatA, []) [DetStep.tri]).2.2.length ≤
      dTie.scale_in_pcts.length :=
  ⟨rfl, (scale_in_exhaustion dTie stFlatA [DetStep.tri] rfl).1⟩

/-! ### The budget contract of the session controllers -/

lemma execute_signal_eq (budget pct : ℚ) (succ : Bool) :
    execute_signal budget pct succ =
      if min (budget * (pct / 100)) budget < 1 then
        (budget, ExecAction.skipped)
      else if succ then
        (budget - min (budget * (pct / 100)) budget,
         ExecAction.issued (min (budget * (pct / 100)) budget))
      else (budget, ExecAction.issued (min (budget * (pct / 100)) budget)) :=
  rfl

lemma execute_signal_nonneg (budget pct : ℚ) (succ : Bool) (h : 0 ≤ budget) :
    0 ≤ (execute_signal budget pct succ).1 := by
  rw [execute_signal_eq]
  by_cases h1 : min (budget * (pct / 100)) budget < 1
  · rw [if_pos h1]
    exact h
  · rw [if_neg h1]
    cases succ with
    | true =>
      rw [if_pos rfl]
      have : min (budget * (pct / 100)) budget ≤ budget := min_le_right _ _
      simp only []
      linarith
    | false =>
      rw [if_neg (by simp)]
      exact h

lemma foldl_execute_signal_nonneg (reqs : List (ℚ × Bool)) :
    ∀ budget : ℚ, 0 ≤ budget →
      0 ≤ reqs.foldl (fun bu r => (execute_signal bu r.1 r.2).1) budget := by
  induction reqs with
  | nil => exact fun b h => h
  | cons r rest ih =>
    intro b h
    rw [List.foldl_cons]
    exact ih _ (execute_signal_nonneg b r.1 r.2 h)

/-- Claim C4: `_execute_signal` computes the notional as
`min(budget * pct/100, budget)`; below the 1 USD floor it skips without
touching the budget; otherwise it issues the order and decrements the
budget by the notional exactly when execution reports success; and the
budget stays non-negative along any sequence of signals. -/
theorem session_budget_contract (budget pct : ℚ) (succ : Bool)
    (reqs : List (ℚ × Bool)) (hb : 0 ≤ budget) :
    (min (budget * (pct / 100)) budget < 1 →
      execute_signal budget pct succ = (budget, ExecAction.skipped)) ∧
    (1 ≤ min (budget * (pct / 100)) budget →
      execute_signal budget pct succ =
        (if succ then budget - min (budget * (pct / 100)) budget else budget,
         ExecAction.issued (min (budget * (pct / 100)) budget))) ∧
    0 ≤ (execute_signal budget pct succ).1 ∧
    0 ≤ reqs.foldl (fun bu r => (execute_signal bu r.1 r.2).1) budget := by
  refine ⟨?_, ?_, execute_signal_nonneg budget pct succ hb,
    foldl_execute_signal_nonneg reqs budget hb⟩
  · intro h
    rw [execute_signal_eq, if_pos h]
  · intro h
    rw [execute_signal_eq, if_neg (not_lt.mpr h)]
    cases succ with
    | true => rw [if_pos rfl, if_pos rfl]
    | false => rw [if_neg (by simp), if_neg (by simp)]

/-- Witness for claim C4: a $100 budget, a 50 percent signal and a
successful execution leave $50. -/
theorem session_budget_contract_witness :
    execute_signal 100 50 true = (50, ExecAction.issued 50) := by
  have h := (session_budget_contract 100 50 true [] (by norm_num)).2.1
    (by rw [min_def]; norm_num)
  rw [h]
  norm_num [min_def]

/-! ### Schedule normalization -/

lemma list_sum_map_mul (l : List ℚ) (c : ℚ) :
    (l.map (fun p => p * c)).sum = l.sum * c := by
  induction l with
  | nil => simp
  | cons x xs ih => simp [ih, add_mul]

/-- Claim C8: `parse_scale_in_pcts` scales a parsed list summing to more
than 100 proportionally so that it sums to exactly 100 and keeps its
length; a parsed list summing to at most 100 is returned unchanged; an
empty or unparseable input yields the default schedule 50/30/20. -/
theorem scale_in_schedule_normalization (pcts : List ℚ) :
    (100 < pcts.sum →
      parse_scale_in_pcts (some pcts) = pcts.map (fun p => p * 100 / pcts.sum) ∧
      (parse_scale_in_pcts (some pcts)).sum = 100 ∧
      (parse_scale_in_pcts (some pcts)).length = pcts.length) ∧
    (pcts.sum ≤ 100 → parse_scale_in_pcts (some pcts) = pcts) ∧
    parse_scale_in_pcts none = [50, 30, 20] := by
  refine ⟨?_, ?_, rfl⟩
  · intro h
    have hne : pcts.sum ≠ 0 := ne_of_gt (lt_trans (by norm_num) h)
    have heq : parse_scale_in_pcts (some pcts) =
        pcts.map (fun p => p * 100 / pcts.sum) := by
      unfold parse_scale_in_pcts
      simp only []
      rw [if_pos h]
    refine ⟨heq, ?_, by rw [heq]; simp⟩
    rw [heq]
    have hfun : (fun p : ℚ => p * 100 / pcts.sum) =
        fun p : ℚ => p * (100 / pcts.sum) := by
      funext p
      rw [mul_div_assoc]
    rw [hfun, list_sum_map_mul]
    field_simp
  · intro h
    unfold parse_scale_in_pcts
    simp only []
    rw [if_neg (not_lt.mpr h)]

/-- Witness for claim C8: the schedule 60,60 is normalized to 50,50. -/
theorem scale_in_schedule_normalization_witness :
    parse_scale_in_pcts (some [60, 60]) = [50, 50] := by
  have h := ((scale_in_schedule_normalization [60, 60]).1 (by norm_num)).1
  rw [h]
  norm_num
